import Mathlib

/-!
Verification of the voice-activity-detection core of `audio_segment.py`.

The Python source is shallowly embedded: numpy arrays of floats become
`List ℚ`, boolean arrays become `List Bool`, Python exceptions become an
explicit `Except PyErr` result, and `np.convolve` with an all-ones kernel
is written out as its defining sum.
-/

/-- The Python exceptions the detection pipeline can raise. -/
inductive PyErr where
  | valueError (msg : String)
  | zeroDivisionError
  deriving DecidableEq, Repr

/-- `ValueError` is Python's invalid-argument error; `ZeroDivisionError` is not. -/
def PyErr.isInvalidArgument : PyErr → Bool
  | .valueError _ => true
  | .zeroDivisionError => false

/-- Python's `int(...)` applied to a float: truncation toward zero. -/
def pyInt (q : ℚ) : ℤ := if 0 ≤ q then ⌊q⌋ else ⌈q⌉

/-- Coercion of a numpy boolean to a number, as used by `np.convolve`. -/
def boolToNat (b : Bool) : ℕ := if b then 1 else 0

/-- `np.convolve(a, np.ones(w))` (full mode): entry `j` is the sum of
`a[m]` over all `m` with `m ≤ j < m + w`. -/
def convolveOnes (a : List ℕ) (w : ℕ) : List ℕ :=
  (List.range (a.length + w - 1)).map fun j =>
    ∑ m ∈ Finset.range a.length, if m ≤ j ∧ j < m + w then a.getD m 0 else 0

/-- `np.convolve(a, v) > 0`: binary dilation with a flat kernel of width `w`. -/
def dilate (a : List Bool) (w : ℕ) : List Bool :=
  (convolveOnes (a.map boolToNat) w).map fun x => decide (0 < x)

/-- `np.convolve(a, v) == v.size`: binary erosion with a flat kernel of width `w`. -/
def erode (a : List Bool) (w : ℕ) : List Bool :=
  (convolveOnes (a.map boolToNat) w).map fun x => decide (x = w)

/-- `fill_gap(a, k)` from `audio_segment.py`: identity at `k = 0`; otherwise
dilation then erosion with the ones kernel `np.ones(2*k+1)`, cropped by
`a[2*k : -2*k]`.  `np.ones` of a negative size and `np.convolve` on an empty
array raise `ValueError`. -/
def fill_gap (a : List Bool) (k : ℤ) : Except PyErr (List Bool) :=
  if k = 0 then .ok a
  else if k < 0 then .error (.valueError "negative dimensions are not allowed")
  else if a.isEmpty then .error (.valueError "a cannot be empty")
  else
    let w := 2 * k.toNat + 1
    let e := erode (dilate a w) w
    .ok ((e.drop (2 * k.toNat)).take (e.length - 4 * k.toNat))

/-- The sentinel-padded mask `np.concatenate(([False], mask, [False]))`,
read at position `i` (out-of-range reads give `false`). -/
def senti (mask : List Bool) (i : ℕ) : Bool :=
  (false :: (mask ++ [false])).getD i false

/-- `np.flatnonzero(np.diff(ws.astype(int)))` for the sentinel-padded mask
`ws`: the ascending list of positions where consecutive entries differ. -/
def transitions (mask : List Bool) : List ℕ :=
  (List.range (mask.length + 1)).filter fun i => senti mask (i + 1) != senti mask i

/-- Grouping of a flat index list into consecutive `(start, end)` rows. -/
def pairUp : List ℕ → List (ℕ × ℕ)
  | a :: b :: rest => (a, b) :: pairUp rest
  | _ => []

/-- `.reshape((-1, 2))`: succeeds exactly when the length is even. -/
def reshape2 (l : List ℕ) : Option (List (ℕ × ℕ)) :=
  if l.length % 2 = 0 then some (pairUp l) else none

/-- The Interval Extractor: transition indices of the sentinel-padded mask,
reshaped into `(start, end)` pairs. -/
def extract_intervals (mask : List Bool) : Option (List (ℕ × ℕ)) :=
  reshape2 (transitions mask)

/-- `audio.db >= db_thresh`: the frame-level binary mask. -/
def frameMask (db : List ℚ) (db_thresh : ℚ) : List Bool :=
  db.map fun x => decide (db_thresh ≤ x)

/-- `np.pad(db_bin, (0, pad_length))` with
`pad_length = (wl - len % wl) % wl`: right-pad with `false` to a multiple
of `wl`. -/
def padMask (mask : List Bool) (wl : ℕ) : List Bool :=
  mask ++ List.replicate ((wl - mask.length % wl) % wl) false

/-- `db_bin.reshape(-1, wl).mean(axis=1)`: the fraction of active frames in
each consecutive block of `wl` frames of the padded mask. -/
def aggregate (mask : List Bool) (wl : ℕ) : List ℚ :=
  let padded := padMask mask wl
  (List.range (padded.length / wl)).map fun i =>
    ((((padded.drop (i * wl)).take wl).countP id : ℕ) : ℚ) / (wl : ℚ)

/-- `db_agg >= agg_thresh`: the window-level binary mask. -/
def windowMask (agg : List ℚ) (agg_thresh : ℚ) : List Bool :=
  agg.map fun r => decide (agg_thresh ≤ r)

/-- `int(audio.sample_rate / audio.hop_length * window_sec)` from `detect`. -/
def windowLength (sample_rate hop_length : ℕ) (window_sec : ℚ) : ℤ :=
  pyInt ((sample_rate : ℚ) / (hop_length : ℚ) * window_sec)

/-- `int(silence_sec / window_sec / 2)` from `detect`: the structuring
radius handed to `fill_gap`. -/
def gapK (silence_sec window_sec : ℚ) : ℤ :=
  pyInt (silence_sec / window_sec / 2)

/-- `is_test_noise` from `audio_segment.py` (thresholds passed explicitly;
the source defaults are `sample_ratio_thresh = 0.75`, `db_ratio_thresh = 0.95`). -/
def is_test_noise (db_agg : List ℚ) (sample_ratio_thresh db_ratio_thresh : ℚ) : Bool :=
  if db_agg.length < 4 then false
  else
    decide (sample_ratio_thresh ≤
      ((db_agg.countP fun x => decide (db_ratio_thresh ≤ x) : ℕ) : ℚ) / (db_agg.length : ℚ))

/-- `out_df[~out_df["is_test_noise"]]`: drop every interval whose slice
`db_agg[start:end]` classifies as test noise. -/
def noiseFree (db_agg : List ℚ) (ivs : List (ℕ × ℕ)) : List (ℕ × ℕ) :=
  ivs.filter fun p => !(is_test_noise ((db_agg.drop p.1).take (p.2 - p.1)) (3/4) (19/20))

/-- Window indices to seconds: `start*window_sec - buffer_sec`,
`end*window_sec + buffer_sec`. -/
def toSeconds (ivs : List (ℕ × ℕ)) (window_sec buffer_sec : ℚ) : List (ℚ × ℚ) :=
  ivs.map fun p => ((p.1 : ℚ) * window_sec - buffer_sec, (p.2 : ℚ) * window_sec + buffer_sec)

/-- `VoiceActivityDetector.detect`.  A zero `window_length` raises
`ZeroDivisionError` at `len(db) % window_length`; a negative one raises a
`ValueError` from numpy (`np.pad` / `reshape`).  Otherwise the pipeline of
the source runs: threshold, aggregate, threshold, gap-fill, extract
intervals, drop test noise, convert to seconds.  When the interval table is
empty, `out_df.apply(..., axis=1)` on the empty two-column DataFrame
returns an empty DataFrame (pandas probes the lambda, swallows its
exception, and falls back to the empty result), and assigning that to the
single column `is_test_noise` raises a `ValueError`; so an empty interval
list is an error, not an empty result. -/
def detect (db : List ℚ) (sample_rate hop_length : ℕ)
    (db_thresh agg_thresh window_sec silence_sec buffer_sec : ℚ) :
    Except PyErr (List (ℚ × ℚ)) :=
  let wl := windowLength sample_rate hop_length window_sec
  if wl = 0 then .error .zeroDivisionError
  else if wl < 0 then .error (.valueError "negative dimensions are not allowed")
  else
    let db_agg := aggregate (frameMask db db_thresh) wl.toNat
    match fill_gap (windowMask db_agg agg_thresh) (gapK silence_sec window_sec) with
    | .error e => .error e
    | .ok filled =>
      match reshape2 (transitions filled) with
      | none => .error (.valueError "cannot reshape array")
      | some ivs =>
        if ivs.isEmpty then
          .error (.valueError
            "Cannot set a DataFrame with multiple columns to the single column is_test_noise")
        else
          .ok (toSeconds (noiseFree db_agg ivs) window_sec buffer_sec)

/-- Reconstruction of a mask of length `n` from a list of half-open
intervals, as in the round-trip property of the spec: position `i` is `true`
exactly when some interval `[start, end)` covers it. -/
def maskOfIntervals (n : ℕ) (ivs : List (ℕ × ℕ)) : List Bool :=
  (List.range n).map fun i => ivs.any fun p => decide (p.1 ≤ i) && decide (i < p.2)

/-! ### Convolution and morphology lemmas -/

theorem convolveOnes_length (a : List ℕ) (w : ℕ) :
    (convolveOnes a w).length = a.length + w - 1 := by
  simp [convolveOnes]

theorem convolveOnes_getD (a : List ℕ) (w j : ℕ) (hj : j < a.length + w - 1) :
    (convolveOnes a w).getD j 0 =
      ∑ m ∈ Finset.range a.length, if m ≤ j ∧ j < m + w then a.getD m 0 else 0 := by
  rw [List.getD_eq_getElem _ _ (by simpa [convolveOnes_length] using hj)]
  simp [convolveOnes]

theorem convolveOnes_boolToNat_getD (a : List Bool) (w j : ℕ)
    (hj : j < a.length + w - 1) :
    (convolveOnes (a.map boolToNat) w).getD j 0 =
      ((Finset.range a.length).filter
        (fun m => m ≤ j ∧ j < m + w ∧ a.getD m false = true)).card := by
  rw [convolveOnes_getD _ _ _ (by simpa using hj)]
  simp only [List.length_map]
  have hcongr : ∀ m ∈ Finset.range a.length,
      (if m ≤ j ∧ j < m + w then (a.map boolToNat).getD m 0 else 0) =
      (if m ≤ j ∧ j < m + w ∧ a.getD m false = true then 1 else 0) := by
    intro m hm
    rw [Finset.mem_range] at hm
    rw [List.getD_eq_getElem _ _ (by simpa using hm), List.getElem_map,
        List.getD_eq_getElem _ _ hm]
    by_cases hc : m ≤ j ∧ j < m + w
    · cases ha : a[m] <;> simp [boolToNat, hc, ha]
    · rw [if_neg hc, if_neg (by tauto)]
  rw [Finset.sum_congr rfl hcongr, Finset.sum_boole, Nat.cast_id]

theorem dilate_length (a : List Bool) (w : ℕ) :
    (dilate a w).length = a.length + w - 1 := by
  simp [dilate, convolveOnes_length]

theorem erode_length (a : List Bool) (w : ℕ) :
    (erode a w).length = a.length + w - 1 := by
  simp [erode, convolveOnes_length]

theorem dilate_getD (a : List Bool) (w j : ℕ) (hj : j < a.length + w - 1) :
    ((dilate a w).getD j false = true ↔
      ∃ p, p < a.length ∧ p ≤ j ∧ j < p + w ∧ a.getD p false = true) := by
  have hlen : j < (convolveOnes (a.map boolToNat) w).length := by
    rw [convolveOnes_length]; simpa using hj
  rw [dilate, List.getD_eq_getElem _ _ (by simpa using hlen), List.getElem_map,
      decide_eq_true_eq]
  have hcard := convolveOnes_boolToNat_getD a w j hj
  rw [List.getD_eq_getElem _ _ hlen] at hcard
  rw [hcard, Finset.card_pos, Finset.filter_nonempty_iff]
  constructor
  · rintro ⟨m, hm, h1, h2, h3⟩
    exact ⟨m, Finset.mem_range.mp hm, h1, h2, h3⟩
  · rintro ⟨p, h0, h1, h2, h3⟩
    exact ⟨p, Finset.mem_range.mpr h0, h1, h2, h3⟩

theorem erode_getD (a : List Bool) (w j : ℕ) (hj : j < a.length + w - 1) :
    ((erode a w).getD j false = true ↔
      ((Finset.range a.length).filter
        (fun m => m ≤ j ∧ j < m + w ∧ a.getD m false = true)).card = w) := by
  have hlen : j < (convolveOnes (a.map boolToNat) w).length := by
    rw [convolveOnes_length]; simpa using hj
  rw [erode, List.getD_eq_getElem _ _ (by simpa using hlen), List.getElem_map,
      decide_eq_true_eq]
  have hcard := convolveOnes_boolToNat_getD a w j hj
  rw [List.getD_eq_getElem _ _ hlen] at hcard
  rw [hcard]

theorem fill_gap_eq_ok (a : List Bool) (k : ℕ) (hk : 1 ≤ k) (ha : a ≠ []) :
    fill_gap a (k : ℤ) =
      .ok (((erode (dilate a (2 * k + 1)) (2 * k + 1)).drop (2 * k)).take
            ((erode (dilate a (2 * k + 1)) (2 * k + 1)).length - 4 * k)) := by
  have hk0 : (k : ℤ) ≠ 0 := by exact_mod_cast Nat.one_le_iff_ne_zero.mp hk
  have hkneg : ¬((k : ℤ) < 0) := not_lt.mpr (Int.natCast_nonneg k)
  have hae : a.isEmpty = false := by simpa [List.isEmpty_iff] using ha
  simp [fill_gap, hk0, hkneg, hae]

theorem fill_gap_char (a : List Bool) (k : ℕ) (hk : 1 ≤ k) (ha : a ≠ []) :
    ∃ r, fill_gap a (k : ℤ) = .ok r ∧ r.length = a.length ∧
      ∀ i, i < a.length →
        ((r.getD i false = true) ↔
          ∀ m, i ≤ m → m ≤ i + 2 * k →
            ∃ p, p < a.length ∧ p ≤ m ∧ m ≤ p + 2 * k ∧ a.getD p false = true) := by
  have hn1 : 1 ≤ a.length := List.length_pos.mpr ha
  have hdlen : (dilate a (2 * k + 1)).length = a.length + 2 * k := by
    rw [dilate_length]; omega
  have helen : (erode (dilate a (2 * k + 1)) (2 * k + 1)).length = a.length + 4 * k := by
    rw [erode_length, hdlen]; omega
  refine ⟨_, fill_gap_eq_ok a k hk ha, ?_, ?_⟩
  · simp only [List.length_take, List.length_drop, helen]; omega
  · intro i hi
    have hrlen :
        i < (((erode (dilate a (2 * k + 1)) (2 * k + 1)).drop (2 * k)).take
          ((erode (dilate a (2 * k + 1)) (2 * k + 1)).length - 4 * k)).length := by
      simp only [List.length_take, List.length_drop, helen]; omega
    rw [List.getD_eq_getElem _ _ hrlen, List.getElem_take, List.getElem_drop]
    have hidx : 2 * k + i < (erode (dilate a (2 * k + 1)) (2 * k + 1)).length := by
      rw [helen]; omega
    rw [← List.getD_eq_getElem _ false hidx]
    rw [erode_getD _ _ _ (by rw [hdlen]; omega)]
    -- the index window of the erosion at 2*k + i is exactly [i, i + 2*k]
    have hfilt :
        (Finset.range (dilate a (2 * k + 1)).length).filter
          (fun m => m ≤ 2 * k + i ∧ 2 * k + i < m + (2 * k + 1) ∧
            (dilate a (2 * k + 1)).getD m false = true) =
        (Finset.Icc i (i + 2 * k)).filter
          (fun m => (dilate a (2 * k + 1)).getD m false = true) := by
      ext m
      simp only [Finset.mem_filter, Finset.mem_range, Finset.mem_Icc, hdlen]
      constructor
      · rintro ⟨h1, h2, h3, h4⟩
        exact ⟨⟨by omega, by omega⟩, h4⟩
      · rintro ⟨⟨h1, h2⟩, h4⟩
        exact ⟨by omega, by omega, by omega, h4⟩
    rw [hfilt]
    have hcardIcc : (Finset.Icc i (i + 2 * k)).card = 2 * k + 1 := by
      rw [Nat.card_Icc]; omega
    constructor
    · intro hcard m hm1 hm2
      have hsub := Finset.filter_subset
        (fun m => (dilate a (2 * k + 1)).getD m false = true) (Finset.Icc i (i + 2 * k))
      have heq : (Finset.Icc i (i + 2 * k)).filter
          (fun m => (dilate a (2 * k + 1)).getD m false = true) =
          Finset.Icc i (i + 2 * k) :=
        Finset.eq_of_subset_of_card_le hsub (by rw [hcard, hcardIcc])
      have hall := Finset.filter_eq_self.mp heq m (Finset.mem_Icc.mpr ⟨hm1, hm2⟩)
      have hdil := (dilate_getD a (2 * k + 1) m (by omega)).mp hall
      obtain ⟨p, hp1, hp2, hp3, hp4⟩ := hdil
      exact ⟨p, hp1, hp2, by omega, hp4⟩
    · intro hforall
      have heq : (Finset.Icc i (i + 2 * k)).filter
          (fun m => (dilate a (2 * k + 1)).getD m false = true) =
          Finset.Icc i (i + 2 * k) := by
        rw [Finset.filter_eq_self]
        intro m hm
        rw [Finset.mem_Icc] at hm
        obtain ⟨p, hp1, hp2, hp3, hp4⟩ := hforall m hm.1 hm.2
        exact (dilate_getD a (2 * k + 1) m (by omega)).mpr ⟨p, hp1, hp2, by omega, hp4⟩
      rw [heq, hcardIcc]

/-! ### Sentinel and transition lemmas -/

theorem senti_zero (mask : List Bool) : senti mask 0 = false := rfl

theorem senti_succ (mask : List Bool) (i : ℕ) :
    senti mask (i + 1) = mask.getD i false := by
  unfold senti
  rw [List.getD_cons_succ]
  rcases lt_or_le i mask.length with h | h
  · exact List.getD_append _ _ _ _ h
  · rw [List.getD_append_right _ _ _ _ h, List.getD_eq_default _ _ h]
    rcases Nat.lt_or_ge (i - mask.length) 1 with h1 | h1
    · interval_cases hi : (i - mask.length)
      rfl
    · exact List.getD_eq_default _ _ (by simpa using h1)

/-- The running number of transitions among the first `m` difference
positions of the sentinel-padded mask. -/
def transCount (mask : List Bool) (m : ℕ) : ℕ :=
  (List.range m).countP fun i => senti mask (i + 1) != senti mask i

theorem transCount_parity (mask : List Bool) (m : ℕ) :
    transCount mask m % 2 = if senti mask m then 1 else 0 := by
  induction m with
  | zero => simp [transCount, senti_zero]
  | succ m ih =>
    unfold transCount at ih ⊢
    rw [List.range_succ, List.countP_append]
    cases h1 : senti mask m <;> cases h2 : senti mask (m + 1) <;>
      simp [h1, h2, List.countP_cons] at ih ⊢ <;> omega

theorem transitions_sorted (mask : List Bool) :
    (transitions mask).Pairwise (· < ·) :=
  (List.pairwise_lt_range _).filter _

theorem transitions_le (mask : List Bool) :
    ∀ t ∈ transitions mask, t ≤ mask.length := by
  intro t ht
  have := List.mem_range.mp (List.mem_of_mem_filter ht)
  omega

theorem transitions_length_even (mask : List Bool) :
    (transitions mask).length % 2 = 0 := by
  have hlen : (transitions mask).length = transCount mask (mask.length + 1) := by
    rw [transitions, transCount, ← List.countP_eq_length_filter]
  rw [hlen, transCount_parity]
  rw [senti_succ, List.getD_eq_default _ _ (le_refl _)]
  simp

theorem transitions_countP_le (mask : List Bool) (x : ℕ) (hx : x ≤ mask.length) :
    (transitions mask).countP (fun t => decide (t ≤ x)) = transCount mask (x + 1) := by
  rw [transitions, List.countP_filter, transCount]
  have hsplit : mask.length + 1 = (x + 1) + (mask.length - x) := by omega
  rw [hsplit, List.range_add, List.countP_append]
  have h1 : (List.range (x + 1)).countP
      (fun a => decide (a ≤ x) && (senti mask (a + 1) != senti mask a)) =
      (List.range (x + 1)).countP (fun i => senti mask (i + 1) != senti mask i) := by
    apply List.countP_congr
    intro a ha
    have := List.mem_range.mp ha
    simp [Nat.lt_succ_iff.mp this]
  have h2 : ((List.range (mask.length - x)).map (x + 1 + ·)).countP
      (fun a => decide (a ≤ x) && (senti mask (a + 1) != senti mask a)) = 0 := by
    rw [List.countP_eq_zero]
    intro a ha
    obtain ⟨b, hb, rfl⟩ := List.mem_map.mp ha
    simp [Nat.not_le.mpr (by omega : x < x + 1 + b)]
  rw [h1, h2]
  omega

/-! ### Pairing lemmas -/

theorem pairUp_mem : ∀ (l : List ℕ) (p : ℕ × ℕ), p ∈ pairUp l → p.1 ∈ l ∧ p.2 ∈ l
  | [], p, h => by simp [pairUp] at h
  | [a], p, h => by simp [pairUp] at h
  | a :: b :: rest, p, h => by
    simp only [pairUp, List.mem_cons] at h
    rcases h with rfl | h
    · exact ⟨by simp, by simp⟩
    · have := pairUp_mem rest p h
      exact ⟨by simp [this.1], by simp [this.2]⟩

theorem pairUp_fst_lt_snd : ∀ (l : List ℕ), l.Pairwise (· < ·) →
    ∀ p ∈ pairUp l, p.1 < p.2
  | [], _, p, h => by simp [pairUp] at h
  | [a], _, p, h => by simp [pairUp] at h
  | a :: b :: rest, hp, p, h => by
    have h1 := List.pairwise_cons.mp hp
    have h2 := List.pairwise_cons.mp h1.2
    simp only [pairUp, List.mem_cons] at h
    rcases h with rfl | h
    · exact h1.1 b (by simp)
    · exact pairUp_fst_lt_snd rest h2.2 p h

theorem pairUp_pairwise : ∀ (l : List ℕ), l.Pairwise (· < ·) →
    (pairUp l).Pairwise fun p q => p.2 ≤ q.1
  | [], _ => by simp [pairUp]
  | [a], _ => by simp [pairUp]
  | a :: b :: rest, hp => by
    have h1 := List.pairwise_cons.mp hp
    have h2 := List.pairwise_cons.mp h1.2
    simp only [pairUp]
    rw [List.pairwise_cons]
    refine ⟨?_, pairUp_pairwise rest h2.2⟩
    intro q hq
    exact le_of_lt (h2.1 q.1 (pairUp_mem rest q hq).1)

theorem pairUp_cover : ∀ (l : List ℕ), l.Pairwise (· < ·) → l.length % 2 = 0 →
    ∀ x : ℕ, ((∃ p ∈ pairUp l, p.1 ≤ x ∧ x < p.2) ↔
      l.countP (fun t => decide (t ≤ x)) % 2 = 1)
  | [], _, _, x => by simp [pairUp]
  | [a], _, he, x => by simp at he
  | a :: b :: rest, hp, he, x => by
    have h1 := List.pairwise_cons.mp hp
    have h2 := List.pairwise_cons.mp h1.2
    have hab : a < b := h1.1 b (by simp)
    have hrest : ∀ t ∈ rest, b < t := h2.1
    have hresteven : rest.length % 2 = 0 := by
      simp only [List.length_cons] at he; omega
    have ih := pairUp_cover rest h2.2 hresteven x
    simp only [pairUp, List.mem_cons]
    rcases lt_or_le x a with hxa | hax
    · have hcount : (a :: b :: rest).countP (fun t => decide (t ≤ x)) = 0 := by
        rw [List.countP_eq_zero]
        intro t ht
        simp only [List.mem_cons] at ht
        simp only [decide_eq_true_eq]
        rcases ht with rfl | rfl | ht
        · omega
        · omega
        · have := hrest t ht; omega
      rw [hcount]
      apply iff_of_false
      · rintro ⟨p, hp', hp1, hp2⟩
        rcases hp' with rfl | hp'
        · simp only at hp1 hp2; omega
        · have hm := (pairUp_mem rest p hp').1
          have := hrest _ hm
          omega
      · simp
    · rcases lt_or_le x b with hxb | hbx
      · have h0 : rest.countP (fun t => decide (t ≤ x)) = 0 := by
          rw [List.countP_eq_zero]
          intro t ht
          simp only [decide_eq_true_eq]
          have := hrest t ht; omega
        have hcount : (a :: b :: rest).countP (fun t => decide (t ≤ x)) = 1 := by
          rw [List.countP_cons, List.countP_cons, h0]
          simp [hax, Nat.not_le.mpr hxb]
        rw [hcount]
        apply iff_of_true
        · exact ⟨(a, b), Or.inl rfl, hax, hxb⟩
        · rfl
      · have hcount : (a :: b :: rest).countP (fun t => decide (t ≤ x)) =
            rest.countP (fun t => decide (t ≤ x)) + 2 := by
          rw [List.countP_cons, List.countP_cons]
          simp [hbx, hax]
        rw [hcount]
        constructor
        · rintro ⟨p, hp', hp1, hp2⟩
          rcases hp' with rfl | hp'
          · simp only at hp1 hp2; omega
          · have := ih.mp ⟨p, hp', hp1, hp2⟩
            omega
        · intro h
          obtain ⟨p, hp', hp1, hp2⟩ := ih.mpr (by omega)
          exact ⟨p, Or.inr hp', hp1, hp2⟩

theorem extract_intervals_eq (mask : List Bool) :
    extract_intervals mask = some (pairUp (transitions mask)) := by
  rw [extract_intervals, reshape2, if_pos (transitions_length_even mask)]

/-- C4: the Interval Extractor round-trips: rebuilding a mask from the
extracted half-open intervals reproduces the input mask exactly. -/
theorem extract_intervals_roundtrip (mask : List Bool) :
    ∃ ivs, extract_intervals mask = some ivs ∧
      maskOfIntervals mask.length ivs = mask := by
  refine ⟨_, extract_intervals_eq mask, ?_⟩
  apply List.ext_getElem
  · simp [maskOfIntervals]
  · intro i h1 h2
    simp only [maskOfIntervals, List.getElem_map, List.getElem_range]
    have hany : ((pairUp (transitions mask)).any fun p =>
        decide (p.1 ≤ i) && decide (i < p.2)) = true ↔
        (∃ p ∈ pairUp (transitions mask), p.1 ≤ i ∧ i < p.2) := by
      rw [List.any_eq_true]
      constructor
      · rintro ⟨p, hp, hcond⟩
        rw [Bool.and_eq_true, decide_eq_true_eq, decide_eq_true_eq] at hcond
        exact ⟨p, hp, hcond.1, hcond.2⟩
      · rintro ⟨p, hp, ha, hb⟩
        exact ⟨p, hp, by simp [ha, hb]⟩
    have hcov := pairUp_cover (transitions mask) (transitions_sorted mask)
      (transitions_length_even mask) i
    have hcnt := transitions_countP_le mask i (le_of_lt h2)
    have hpar := transCount_parity mask (i + 1)
    rw [Bool.eq_iff_iff, hany, hcov, hcnt, hpar, senti_succ,
        List.getD_eq_getElem _ _ h2]
    cases mask[i] <;> simp

/-! ### Pipeline helper lemmas -/

theorem fill_gap_ok_length (a : List Bool) (k : ℤ) (hk : 0 ≤ k)
    (ha : k = 0 ∨ a ≠ []) :
    ∃ r, fill_gap a k = .ok r ∧ r.length = a.length := by
  rcases eq_or_lt_of_le hk with h0 | hpos
  · exact ⟨a, by rw [fill_gap, if_pos h0.symm], rfl⟩
  · have ha' : a ≠ [] := by
      rcases ha with h | h
      · omega
      · exact h
    have hk1 : 1 ≤ k.toNat := by omega
    have hcast : ((k.toNat : ℕ) : ℤ) = k := Int.toNat_of_nonneg hk
    obtain ⟨r, hok, hlen, _⟩ := fill_gap_char a k.toNat hk1 ha'
    rw [hcast] at hok
    exact ⟨r, hok, hlen⟩

theorem padMask_length_dvd (mask : List Bool) (wl : ℕ) (hw : 1 ≤ wl) :
    wl ∣ (padMask mask wl).length := by
  simp only [padMask, List.length_append, List.length_replicate]
  rcases Nat.eq_zero_or_pos (mask.length % wl) with h0 | hpos
  · rw [h0, Nat.sub_zero, Nat.mod_self, Nat.add_zero]
    exact Nat.dvd_of_mod_eq_zero h0
  · have h1 : mask.length % wl < wl := Nat.mod_lt _ (by omega)
    rw [Nat.mod_eq_of_lt (by omega)]
    refine ⟨mask.length / wl + 1, ?_⟩
    have h3 := Nat.div_add_mod mask.length wl
    rw [Nat.mul_add, Nat.mul_one]
    omega

theorem padMask_length_ge (mask : List Bool) (wl : ℕ) :
    mask.length ≤ (padMask mask wl).length := by
  simp [padMask]

theorem aggregate_length (mask : List Bool) (wl : ℕ) :
    (aggregate mask wl).length = (padMask mask wl).length / wl := by
  simp [aggregate]

theorem padded_div_pos (mask : List Bool) (wl : ℕ) (hw : 1 ≤ wl)
    (hm : mask ≠ []) : 1 ≤ (padMask mask wl).length / wl := by
  have hd := padMask_length_dvd mask wl hw
  have hge := padMask_length_ge mask wl
  have hpos : 1 ≤ mask.length := List.length_pos.mpr hm
  have hle : wl ≤ (padMask mask wl).length := Nat.le_of_dvd (by omega) hd
  rw [Nat.le_div_iff_mul_le (by omega)]
  omega

theorem aggregate_length_pos (mask : List Bool) (wl : ℕ) (hw : 1 ≤ wl)
    (hm : mask ≠ []) : 1 ≤ (aggregate mask wl).length := by
  rw [aggregate_length]
  exact padded_div_pos mask wl hw hm

theorem senti_replicate_false (L i : ℕ) :
    senti (List.replicate L false) i = false := by
  cases i with
  | zero => exact senti_zero _
  | succ j =>
    rw [senti_succ]
    rcases lt_or_le j L with h | h
    · rw [List.getD_eq_getElem _ _ (by simpa using h)]
      simp
    · exact List.getD_eq_default _ _ (by simpa using h)

theorem transitions_replicate_false (L : ℕ) :
    transitions (List.replicate L false) = [] := by
  rw [transitions]
  rw [List.filter_eq_nil_iff]
  intro a _
  simp [senti_replicate_false]

theorem fill_gap_replicate_false (L : ℕ) (k : ℤ) (hk : 0 ≤ k) (hL : 1 ≤ L) :
    fill_gap (List.replicate L false) k = .ok (List.replicate L false) := by
  rcases eq_or_lt_of_le hk with h0 | hpos
  · rw [fill_gap, if_pos h0.symm]
  · have hk1 : 1 ≤ k.toNat := by omega
    have hcast : ((k.toNat : ℕ) : ℤ) = k := Int.toNat_of_nonneg hk
    have hne : List.replicate L false ≠ [] := by
      rw [← List.length_pos, List.length_replicate]; omega
    obtain ⟨r, hok, hlen, hchar⟩ := fill_gap_char (List.replicate L false) k.toNat hk1 hne
    rw [hcast] at hok
    rw [hok]
    congr 1
    apply List.ext_getElem
    · simpa using hlen
    · intro i hi1 hi2
      have hiL : i < L := by simpa using hi2
      have h := hchar i (by simpa using hiL)
      have hnot : ¬(r.getD i false = true) := by
        intro htrue
        obtain ⟨p, hp1, _, _, hp4⟩ := (h.mp htrue) i (le_refl i) (by omega)
        rw [List.getD_eq_getElem _ _ hp1] at hp4
        simp at hp4
      rw [List.getD_eq_getElem _ _ hi1] at hnot
      simp only [List.getElem_replicate]
      simpa using hnot

theorem countP_id_take_drop_replicate_false (N s t : ℕ) :
    (((List.replicate N false).drop s).take t).countP id = 0 := by
  rw [List.countP_eq_zero]
  intro a ha
  have h1 := List.mem_of_mem_take ha
  have h2 := List.mem_of_mem_drop h1
  have := List.eq_of_mem_replicate h2
  simp [this]

theorem aggregate_replicate_false (n wl : ℕ) :
    aggregate (List.replicate n false) wl =
      List.replicate ((padMask (List.replicate n false) wl).length / wl) 0 := by
  have hpad : padMask (List.replicate n false) wl =
      List.replicate (n + (wl - n % wl) % wl) false := by
    rw [padMask, List.length_replicate, List.append_replicate_replicate]
  simp only [aggregate]
  rw [hpad]
  simp only [countP_id_take_drop_replicate_false, Nat.cast_zero, zero_div]
  rw [List.map_const', List.length_range]

theorem frameMask_all_silent (db : List ℚ) (dbt : ℚ) (h : ∀ x ∈ db, x < dbt) :
    frameMask db dbt = List.replicate db.length false := by
  rw [frameMask, List.eq_replicate_iff]
  refine ⟨by simp, ?_⟩
  intro b hb
  obtain ⟨x, hx, rfl⟩ := List.mem_map.mp hb
  simp [not_le.mpr (h x hx)]

theorem windowMask_replicate_zero (L : ℕ) (aggt : ℚ) (h : 0 < aggt) :
    windowMask (List.replicate L 0) aggt = List.replicate L false := by
  rw [windowMask, List.map_replicate]
  simp [not_le.mpr h]

/-! ### Claim theorems -/

/-- C9: for every binary mask the extracted interval list is sorted
ascending by start index, pairwise non-overlapping, and every interval has
`start_index < end_index`. -/
theorem extract_intervals_sorted_disjoint (mask : List Bool) :
    ∃ ivs, extract_intervals mask = some ivs ∧
      ivs.Pairwise (fun p q => p.1 < q.1) ∧
      ivs.Pairwise (fun p q => p.2 ≤ q.1) ∧
      ∀ p ∈ ivs, p.1 < p.2 := by
  refine ⟨_, extract_intervals_eq mask, ?_,
    pairUp_pairwise _ (transitions_sorted mask),
    pairUp_fst_lt_snd _ (transitions_sorted mask)⟩
  have h1 := pairUp_pairwise _ (transitions_sorted mask)
  have h2 := pairUp_fst_lt_snd _ (transitions_sorted mask)
  exact h1.imp_of_mem fun hp _ h => lt_of_lt_of_le (h2 _ hp) h

/-- C10: in `detect`, the transition index list of the sentinel-padded,
gap-filled window mask has even length, so the reshape into pairs succeeds,
and every pair `(start, end)` satisfies `start < end ≤ length` of the
Aggregated Ratio Trace — the slice `db_agg[start:end]` is in bounds. -/
theorem detect_interval_bounds (db : List ℚ) (sr hop : ℕ) (dbt aggt ws ss : ℚ)
    (hdb : db ≠ []) (hwl : 1 ≤ windowLength sr hop ws) (hk : 0 ≤ gapK ss ws) :
    ∃ filled,
      fill_gap (windowMask (aggregate (frameMask db dbt)
          (windowLength sr hop ws).toNat) aggt) (gapK ss ws) = .ok filled ∧
      (transitions filled).length % 2 = 0 ∧
      reshape2 (transitions filled) = some (pairUp (transitions filled)) ∧
      ∀ p ∈ pairUp (transitions filled), p.1 < p.2 ∧
        p.2 ≤ (aggregate (frameMask db dbt) (windowLength sr hop ws).toNat).length := by
  have hfl : frameMask db dbt ≠ [] := by
    simp only [frameMask, ne_eq, List.map_eq_nil_iff]
    exact hdb
  have hwl1 : 1 ≤ (windowLength sr hop ws).toNat := by omega
  have haggpos := aggregate_length_pos (frameMask db dbt) _ hwl1 hfl
  have hwm : (windowMask (aggregate (frameMask db dbt)
      (windowLength sr hop ws).toNat) aggt).length =
      (aggregate (frameMask db dbt) (windowLength sr hop ws).toNat).length := by
    simp [windowMask]
  have hwmne : windowMask (aggregate (frameMask db dbt)
      (windowLength sr hop ws).toNat) aggt ≠ [] := by
    rw [← List.length_pos, hwm]
    omega
  obtain ⟨filled, hok, hlen⟩ := fill_gap_ok_length _ (gapK ss ws) hk (Or.inr hwmne)
  refine ⟨filled, hok, transitions_length_even filled, ?_, ?_⟩
  · rw [reshape2, if_pos (transitions_length_even filled)]
  · intro p hp
    refine ⟨pairUp_fst_lt_snd _ (transitions_sorted filled) p hp, ?_⟩
    have hb := transitions_le filled p.2 (pairUp_mem _ p hp).2
    rw [hlen, hwm] at hb
    exact hb

/-- Witness for C10 at a concrete input. -/
theorem detect_interval_bounds_witness :
    ∃ filled,
      fill_gap (windowMask (aggregate (frameMask [(-10 : ℚ)] (-25))
          (windowLength 1 1 5).toNat) (1/50)) (gapK 30 5) = .ok filled ∧
      (transitions filled).length % 2 = 0 ∧
      reshape2 (transitions filled) = some (pairUp (transitions filled)) ∧
      ∀ p ∈ pairUp (transitions filled), p.1 < p.2 ∧
        p.2 ≤ (aggregate (frameMask [(-10 : ℚ)] (-25)) (windowLength 1 1 5).toNat).length :=
  detect_interval_bounds [(-10 : ℚ)] 1 1 (-25) (1/50) 5 30 (by simp)
    (by norm_num [windowLength, pyInt]) (by norm_num [gapK, pyInt])

/-- On any nonempty all-silent trace the pipeline produces an empty
interval table, and the pandas column assignment on that empty table
raises a `ValueError` — `detect` errors instead of returning an empty
result (default window/silence/buffer parameters, positive window length
and aggregation threshold). -/
theorem detect_all_silent_error (db : List ℚ) (sr hop : ℕ) (dbt aggt : ℚ)
    (hdb : db ≠ []) (hsilent : ∀ x ∈ db, x < dbt) (haggt : 0 < aggt)
    (hwl : 1 ≤ windowLength sr hop 5) :
    detect db sr hop dbt aggt 5 30 1 =
      .error (.valueError
        "Cannot set a DataFrame with multiple columns to the single column is_test_noise") := by
  have hwl0 : ¬(windowLength sr hop 5 = 0) := by omega
  have hwlneg : ¬(windowLength sr hop 5 < 0) := by omega
  have hgap : gapK 30 5 = 3 := by norm_num [gapK, pyInt]
  have hwl1 : 1 ≤ (windowLength sr hop 5).toNat := by omega
  have hdblen : 1 ≤ db.length := List.length_pos.mpr hdb
  have hL : 1 ≤ (padMask (List.replicate db.length false)
      (windowLength sr hop 5).toNat).length / (windowLength sr hop 5).toNat := by
    apply padded_div_pos _ _ hwl1
    rw [← List.length_pos, List.length_replicate]
    omega
  simp only [detect]
  rw [if_neg hwl0, if_neg hwlneg,
      frameMask_all_silent db dbt hsilent, aggregate_replicate_false,
      windowMask_replicate_zero _ _ haggt, hgap,
      fill_gap_replicate_false _ 3 (by omega) hL]
  simp [transitions_replicate_false, reshape2, pairUp]

/-- C6: the claim holds of the spec but not of the code — on an all-silent
trace the interval table is empty, `out_df.apply` on the empty DataFrame
returns an empty DataFrame, and the assignment
`out_df["is_test_noise"] = ...` raises a `ValueError`, so `detect` raises
instead of returning an empty Detection Result.  This theorem evaluates
the code at a concrete all-silent failing input. -/
theorem detect_all_silent_raises :
    detect [(-100 : ℚ)] 1 1 (-25) (1/50) 5 30 1 =
      .error (.valueError
        "Cannot set a DataFrame with multiple columns to the single column is_test_noise") :=
  detect_all_silent_error [(-100 : ℚ)] 1 1 (-25) (1/50) (by simp)
    (by
      intro x hx
      rw [List.mem_singleton] at hx
      subst hx
      norm_num)
    (by norm_num) (by norm_num [windowLength, pyInt])

/-- C8: `fill_gap` preserves the length of the mask, for every `k ≥ 0` and
every mask longer than `4 * k`. -/
theorem fill_gap_length_preserved (mask : List Bool) (k : ℤ)
    (hk : 0 ≤ k) (hlen : 4 * k < (mask.length : ℤ)) :
    ∃ r, fill_gap mask k = .ok r ∧ r.length = mask.length := by
  apply fill_gap_ok_length mask k hk
  rcases eq_or_lt_of_le hk with h0 | hpos
  · exact Or.inl h0.symm
  · refine Or.inr ?_
    rw [← List.length_pos]
    omega

/-- Witness for C8 at a concrete input. -/
theorem fill_gap_length_preserved_witness :
    ∃ r, fill_gap (List.replicate 5 true) 1 = .ok r ∧
      r.length = (List.replicate 5 true).length :=
  fill_gap_length_preserved (List.replicate 5 true) 1 (by norm_num) (by norm_num)

/-- Pointwise description of the test mask `[T]*3 ++ [F]*g ++ [T]*3`. -/
theorem gapMask_getD (g p : ℕ) :
    ((List.replicate 3 true ++ (List.replicate g false ++
      List.replicate 3 true)).getD p false = true) ↔
      (p < 3 ∨ (3 + g ≤ p ∧ p < g + 6)) := by
  rcases lt_or_le p 3 with h3 | h3
  · rw [List.getD_append _ _ _ _ (by simpa using h3),
        List.getD_eq_getElem _ _ (by simpa using h3), List.getElem_replicate]
    exact iff_of_true rfl (Or.inl h3)
  · rw [List.getD_append_right _ _ _ _ (by simpa using h3), List.length_replicate]
    rcases lt_or_le (p - 3) g with hg | hg
    · rw [List.getD_append _ _ _ _ (by simpa using hg),
          List.getD_eq_getElem _ _ (by simpa using hg), List.getElem_replicate]
      exact iff_of_false (by simp) (by omega)
    · rw [List.getD_append_right _ _ _ _ (by simpa using hg), List.length_replicate]
      rcases lt_or_le (p - 3 - g) 3 with h6 | h6
      · rw [List.getD_eq_getElem _ _ (by simpa using h6), List.getElem_replicate]
        exact iff_of_true rfl (Or.inr ⟨by omega, by omega⟩)
      · rw [List.getD_eq_default _ _ (by simpa using h6)]
        exact iff_of_false (by simp) (by omega)

/-- C5: gap bridging.  On `[T]*3 ++ [F]*g ++ [T]*3`, when `g ≤ 2*k` the
closing yields one unbroken run of `true` over the whole region; when
`g > 2*k` the gap survives (position 3 stays `false`). -/
theorem fill_gap_bridges_gaps (k g : ℕ) (hk : 1 ≤ k) :
    (g ≤ 2 * k →
      fill_gap (List.replicate 3 true ++ (List.replicate g false ++
        List.replicate 3 true)) (k : ℤ) = .ok (List.replicate (6 + g) true)) ∧
    (2 * k < g →
      ∃ r, fill_gap (List.replicate 3 true ++ (List.replicate g false ++
        List.replicate 3 true)) (k : ℤ) = .ok r ∧ r.getD 3 false = false) := by
  have hmlen : (List.replicate 3 true ++ (List.replicate g false ++
      List.replicate 3 true)).length = g + 6 := by
    simp only [List.length_append, List.length_replicate]
    omega
  have hmne : List.replicate 3 true ++ (List.replicate g false ++
      List.replicate 3 true) ≠ [] := by
    rw [← List.length_pos, hmlen]
    omega
  obtain ⟨r, hok, hlen, hchar⟩ := fill_gap_char _ k hk hmne
  rw [hmlen] at hlen hchar
  constructor
  · intro hg
    rw [hok]
    congr 1
    apply List.ext_getElem
    · rw [hlen, List.length_replicate]
      omega
    · intro i hi1 hi2
      rw [List.getElem_replicate]
      have hiL : i < g + 6 := by rw [hlen] at hi1; exact hi1
      have hget : r.getD i false = true := by
        rw [hchar i hiL]
        intro m hm1 hm2
        by_cases hmle : m ≤ 2 * k + 2
        · refine ⟨min m 2, by omega, by omega, by omega, ?_⟩
          rw [gapMask_getD]; omega
        · refine ⟨max (g + 3) (m - 2 * k), by omega, by omega, by omega, ?_⟩
          rw [gapMask_getD]; omega
      rw [List.getD_eq_getElem _ _ hi1] at hget
      exact hget
  · intro hg
    refine ⟨r, hok, ?_⟩
    have h3 : (3 : ℕ) < g + 6 := by omega
    have hnot : ¬(r.getD 3 false = true) := by
      rw [hchar 3 h3]
      push_neg
      refine ⟨2 * k + 3, by omega, by omega, ?_⟩
      intro p hp1 hp2 hp3
      rw [Ne, gapMask_getD]
      intro hcon
      rcases hcon with hlt | ⟨hge, _⟩
      · omega
      · omega
    cases hr3 : r.getD 3 false
    · rfl
    · exact absurd hr3 hnot

/-- Witness for C5 at concrete inputs: `g = 3 ≤ 2*2` bridges, `g = 3 > 2*1`
does not. -/
theorem fill_gap_bridges_gaps_witness :
    (fill_gap (List.replicate 3 true ++ (List.replicate 3 false ++
      List.replicate 3 true)) ((2 : ℕ) : ℤ) = .ok (List.replicate 9 true)) ∧
    (∃ r, fill_gap (List.replicate 3 true ++ (List.replicate 3 false ++
      List.replicate 3 true)) ((1 : ℕ) : ℤ) = .ok r ∧ r.getD 3 false = false) :=
  ⟨(fill_gap_bridges_gaps 2 3 (by norm_num)).1 (by norm_num),
   (fill_gap_bridges_gaps 1 3 (by norm_num)).2 (by norm_num)⟩

/-- C7: the Test-Tone Classifier returns `false` on slices shorter than 4
samples; otherwise it returns `true` exactly when the fraction of samples
at least `db_ratio_thresh` reaches `sample_ratio_thresh`. -/
theorem is_test_noise_spec (l : List ℚ) (srt drt : ℚ) :
    (l.length < 4 → is_test_noise l srt drt = false) ∧
    (4 ≤ l.length →
      (is_test_noise l srt drt = true ↔
        srt ≤ ((l.countP fun x => decide (drt ≤ x) : ℕ) : ℚ) / (l.length : ℚ))) := by
  constructor
  · intro h
    rw [is_test_noise, if_pos h]
  · intro h
    rw [is_test_noise, if_neg (by omega), decide_eq_true_eq]

/-- Witness for C7 at concrete inputs. -/
theorem is_test_noise_spec_witness :
    is_test_noise [(1 : ℚ), 1, 1] (3/4) (19/20) = false ∧
    (is_test_noise [(1 : ℚ), 1, 1, 1] (3/4) (19/20) = true ↔
      (3/4 : ℚ) ≤ ((List.countP (fun x => decide ((19/20 : ℚ) ≤ x))
        [(1 : ℚ), 1, 1, 1] : ℕ) : ℚ) / ((List.length [(1 : ℚ), 1, 1, 1] : ℕ) : ℚ)) :=
  ⟨(is_test_noise_spec [(1 : ℚ), 1, 1] (3/4) (19/20)).1 (by norm_num),
   (is_test_noise_spec [(1 : ℚ), 1, 1, 1] (3/4) (19/20)).2 (by norm_num)⟩

/-- C1 counterexample: at `sample_rate = 7`, `hop_length = 4`,
`window_sec = 1` the code computes `int(7/4*1) = 1`, while
`round(7/4*1) = 2` under any rounding convention. -/
theorem windowLength_ne_round :
    windowLength 7 4 1 ≠ round ((7 : ℚ) / (4 : ℚ) * 1) := by
  norm_num [windowLength, pyInt, round_eq]

/-- C1 amended: `detect` computes the aggregation window length by
truncation, `window_length = ⌊sample_rate / hop_length * window_sec⌋`, for
every nonnegative `window_sec`. -/
theorem windowLength_eq_floor (sr hop : ℕ) (ws : ℚ) (hws : 0 ≤ ws) :
    windowLength sr hop ws = ⌊(sr : ℚ) / (hop : ℚ) * ws⌋ := by
  rw [windowLength, pyInt, if_pos]
  exact mul_nonneg (div_nonneg (Nat.cast_nonneg sr) (Nat.cast_nonneg hop)) hws

/-- Witness for C1's amended statement. -/
theorem windowLength_eq_floor_witness :
    windowLength 7 4 1 = ⌊(7 : ℚ) / (4 : ℚ) * 1⌋ :=
  windowLength_eq_floor 7 4 1 (by norm_num)

/-- C2 counterexample: at `silence_sec = 30`, `window_sec = 8` the code
computes `int(30/8/2) = 1`, while `round(30/8/2) = 2` under any rounding
convention. -/
theorem gapK_ne_round :
    gapK 30 8 ≠ round ((30 : ℚ) / (8 : ℚ) / 2) := by
  norm_num [gapK, pyInt, round_eq]

/-- C2 amended: the structuring radius handed to `fill_gap` is
`⌊silence_sec / window_sec / 2⌋` whenever `silence_sec / window_sec` is
nonnegative. -/
theorem gapK_eq_floor (ss ws : ℚ) (h : 0 ≤ ss / ws) :
    gapK ss ws = ⌊ss / ws / 2⌋ := by
  rw [gapK, pyInt, if_pos]
  exact div_nonneg h (by norm_num)

/-- Witness for C2's amended statement. -/
theorem gapK_eq_floor_witness : gapK 30 8 = ⌊(30 : ℚ) / (8 : ℚ) / 2⌋ :=
  gapK_eq_floor 30 8 (by norm_num)

/-- C3 counterexample: the input with `sample_rate = 1`, `hop_length = 10`
is malformed (`window_length = int(1/10*5) = 0`), yet `detect` raises
`ZeroDivisionError`, which is not an invalid-argument (`ValueError`)
error. -/
theorem detect_zero_window_not_invalid_argument :
    detect [(-100 : ℚ)] 1 10 (-25) (1/50) 5 30 1 = .error .zeroDivisionError ∧
    PyErr.zeroDivisionError.isInvalidArgument = false := by
  constructor
  · have h : windowLength 1 10 5 = 0 := by norm_num [windowLength, pyInt]
    simp only [detect]
    rw [if_pos h]
  · rfl

/-- C3 amended: every malformed input makes the pipeline raise rather than
return a silently empty or incorrect result, and all raise a `ValueError`
(Python's invalid-argument error) except one: a negative `k` raises
`ValueError` from `np.ones`; a negative `window_length` raises `ValueError`
from the numpy padding/reshape; an empty Loudness Trace raises `ValueError`
for every `k` (from `np.ones` for `k < 0`, from the pandas column
assignment on the empty interval table for `k = 0`, from `np.convolve` for
`k ≥ 1`); only `window_length = 0` deviates from the claim, raising
`ZeroDivisionError` — not an invalid-argument error — at the padding
modulo. -/
theorem malformed_inputs_raise (a : List Bool) (k : ℤ)
    (db : List ℚ) (sr hop : ℕ) (dbt aggt ws ss bs : ℚ) :
    (k < 0 →
      fill_gap a k = .error (.valueError "negative dimensions are not allowed")) ∧
    (windowLength sr hop ws < 0 →
      ∃ e, detect db sr hop dbt aggt ws ss bs = .error e ∧
        e.isInvalidArgument = true) ∧
    (windowLength sr hop ws = 0 →
      detect db sr hop dbt aggt ws ss bs = .error .zeroDivisionError ∧
      PyErr.zeroDivisionError.isInvalidArgument = false) ∧
    (db = [] → 1 ≤ windowLength sr hop ws →
      ∃ e, detect db sr hop dbt aggt ws ss bs = .error e ∧
        e.isInvalidArgument = true) := by
  refine ⟨?_, ?_, ?_, ?_⟩
  · intro hkneg
    rw [fill_gap, if_neg (by omega), if_pos hkneg]
  · intro h
    refine ⟨.valueError "negative dimensions are not allowed", ?_, rfl⟩
    simp only [detect]
    rw [if_neg (by omega), if_pos h]
  · intro h
    refine ⟨?_, rfl⟩
    simp only [detect]
    rw [if_pos h]
  · intro hdb hwl
    subst hdb
    have hagg : aggregate (frameMask [] dbt) (windowLength sr hop ws).toNat = [] := by
      simp [aggregate, frameMask, padMask]
    have hwm : windowMask [] aggt = [] := by simp [windowMask]
    rcases lt_trichotomy (gapK ss ws) 0 with hneg | hzero | hpos
    · refine ⟨.valueError "negative dimensions are not allowed", ?_, rfl⟩
      simp only [detect]
      rw [if_neg (by omega), if_neg (by omega), hagg, hwm]
      have hfg : fill_gap [] (gapK ss ws) =
          .error (.valueError "negative dimensions are not allowed") := by
        rw [fill_gap, if_neg (by omega : ¬(gapK ss ws = 0)), if_pos hneg]
      rw [hfg]
    · refine ⟨.valueError
        "Cannot set a DataFrame with multiple columns to the single column is_test_noise",
        ?_, rfl⟩
      simp only [detect]
      rw [if_neg (by omega), if_neg (by omega), hagg, hwm]
      have hfg : fill_gap [] (gapK ss ws) = .ok [] := by
        rw [fill_gap, if_pos hzero]
      rw [hfg]
      rfl
    · refine ⟨.valueError "a cannot be empty", ?_, rfl⟩
      simp only [detect]
      rw [if_neg (by omega), if_neg (by omega), hagg, hwm]
      have hfg : fill_gap [] (gapK ss ws) = .error (.valueError "a cannot be empty") := by
        rw [fill_gap, if_neg (by omega : ¬(gapK ss ws = 0)),
            if_neg (by omega : ¬(gapK ss ws < 0))]
        rfl
      rw [hfg]

/-- Witness for C3's amended statement at concrete inputs, exercising the
negative `k`, negative `window_length`, zero `window_length`, and empty
trace (both `k = 0` and `k ≥ 1`) cases. -/
theorem malformed_inputs_raise_witness :
    fill_gap [true] (-1) = .error (.valueError "negative dimensions are not allowed") ∧
    (∃ e, detect [(-100 : ℚ)] 1 1 (-25) (1/50) (-5) 30 1 = .error e ∧
      e.isInvalidArgument = true) ∧
    (detect [(-100 : ℚ)] 1 10 (-25) (1/50) 5 30 1 = .error .zeroDivisionError ∧
      PyErr.zeroDivisionError.isInvalidArgument = false) ∧
    (∃ e, detect ([] : List ℚ) 1 1 (-25) (1/50) 5 30 1 = .error e ∧
      e.isInvalidArgument = true) ∧
    (∃ e, detect ([] : List ℚ) 1 1 (-25) (1/50) 5 1 1 = .error e ∧
      e.isInvalidArgument = true) :=
  ⟨(malformed_inputs_raise [true] (-1) [] 1 1 0 0 0 0 0).1 (by norm_num),
   (malformed_inputs_raise [] 0 [(-100 : ℚ)] 1 1 (-25) (1/50) (-5) 30 1).2.1
     (by norm_num [windowLength, pyInt, Int.ceil_neg]),
   (malformed_inputs_raise [] 0 [(-100 : ℚ)] 1 10 (-25) (1/50) 5 30 1).2.2.1
     (by norm_num [windowLength, pyInt]),
   (malformed_inputs_raise [] 0 ([] : List ℚ) 1 1 (-25) (1/50) 5 30 1).2.2.2 rfl
     (by norm_num [windowLength, pyInt]),
   (malformed_inputs_raise [] 0 ([] : List ℚ) 1 1 (-25) (1/50) 5 1 1).2.2.2 rfl
     (by norm_num [windowLength, pyInt])⟩
